import Mathlib

/-!
Verification of the deferred-value ("token") resolution and template
synthesis engine of an infrastructure-definition framework, together with
the `NodejsFunction` construct of its `aws-lambda-nodejs` package.

The core engine (token registry, encoder/scanner, reference-graph builder,
resolver, template emitter) is not shipped in this source tree: only its
example output template (`part_000`) is present.  The engine is therefore
modelled from the specification; the `aws-lambda-nodejs` part is embedded
directly from `packages/@aws-cdk/aws-lambda-nodejs/lib/function.ts`.

All recursive functions are written with an explicit fuel argument and
structural recursion on the fuel, so that every definition computes by
kernel reduction on concrete inputs.
-/

namespace Cdk

/-! ## Token string encoding and scanning -/

/-- Modelled from the spec: the "structurally unlikely-to-collide marker
sequence" opening a string-embedded token encoding (§4.2). -/
def markerL : List Char := ['$', '\x7b', 'T', 'o', 'k', 'e', 'n', '[']

/-- Modelled from the spec: the marker sequence closing a string-embedded
token encoding (§4.2). -/
def markerR : List Char := [']', '\x7d']

/-- Decimal digit character for a digit value below ten. -/
def digitChar (d : Nat) : Char :=
  if d = 0 then '0' else if d = 1 then '1' else if d = 2 then '2'
  else if d = 3 then '3' else if d = 4 then '4' else if d = 5 then '5'
  else if d = 6 then '6' else if d = 7 then '7' else if d = 8 then '8' else '9'

/-- Decimal rendering of a natural number, most significant digit first.
Fueled; `fuel = n + 1` always suffices. -/
def natDigitsAux : Nat → Nat → List Char → List Char
  | 0, _, acc => acc
  | fuel + 1, n, acc =>
    if n < 10 then digitChar n :: acc
    else natDigitsAux fuel (n / 10) (digitChar (n % 10) :: acc)

/-- Decimal rendering of a natural number. -/
def natDigits (n : Nat) : List Char := natDigitsAux (n + 1) n []

/-- Numeric value of a decimal digit character. -/
def charVal (c : Char) : Nat := c.toNat - 48

/-- Parse a digit list back into a natural number. -/
def parseFold (ds : List Char) : Nat :=
  ds.foldl (fun a c => a * 10 + charVal c) 0

/-- Split a character list into its maximal leading run of decimal digits
and the remainder. -/
def readDigits : List Char → List Char × List Char
  | [] => ([], [])
  | c :: cs =>
    if c.isDigit then
      let p := readDigits cs
      (c :: p.1, p.2)
    else ([], c :: cs)

/-- Does `p` occur at the start of `l`? -/
def startsWithL : List Char → List Char → Bool
  | [], _ => true
  | _ :: _, [] => false
  | p :: ps, c :: cs => p == c && startsWithL ps cs

/-- Does the opening marker occur anywhere in `l`? -/
def containsMarker : List Char → Bool
  | [] => false
  | c :: cs => startsWithL markerL (c :: cs) || containsMarker cs

/-- A fragment produced by scanning a string: literal text or an embedded
token identifier. -/
inductive Frag where
  | lit (chars : List Char) : Frag
  | tok (id : Nat) : Frag
deriving DecidableEq

/-- Flush the (reversed) pending literal accumulator in front of `rest`. -/
def pushLit (acc : List Char) (rest : List Frag) : List Frag :=
  if acc.isEmpty then rest else .lit acc.reverse :: rest

/-- Modelled from the spec: the token scanner (§4.2).  Walks the string
left to right; on the opening marker followed by a nonempty digit run and
the closing marker it emits a token fragment, otherwise it accumulates
literal text.  Fueled; `fuel = input length` suffices. -/
def scanAux : Nat → List Char → List Char → List Frag
  | 0, acc, _ => pushLit acc []
  | _ + 1, acc, [] => pushLit acc []
  | fuel + 1, acc, c :: cs =>
    if startsWithL markerL (c :: cs) then
      if !(readDigits ((c :: cs).drop markerL.length)).1.isEmpty &&
          startsWithL markerR (readDigits ((c :: cs).drop markerL.length)).2 then
        pushLit acc
          (.tok (parseFold (readDigits ((c :: cs).drop markerL.length)).1) ::
            scanAux fuel []
              ((readDigits ((c :: cs).drop markerL.length)).2.drop markerR.length))
      else scanAux fuel (c :: acc) cs
    else scanAux fuel (c :: acc) cs

/-- Scan a string into its ordered literal and token fragments. -/
def scan (s : String) : List Frag := scanAux s.data.length [] s.data

/-- The scanner with its canonical fuel (the input length). -/
def scanA (acc rem : List Char) : List Frag := scanAux rem.length acc rem

/-- The ordered token identifiers among a fragment list. -/
def tokIds (fs : List Frag) : List Nat :=
  fs.filterMap fun f => match f with | .tok id => some id | .lit _ => none

/-- A string is token-free when the opening marker never occurs in it. -/
def strTokenFree (s : String) : Bool := !containsMarker s.data

/-- Modelled from the spec: the reversible string encoding of a registered
token (§4.2) — opening marker, decimal identifier, closing marker. -/
def encodeL (id : Nat) : List Char := markerL ++ natDigits id ++ markerR

/-- String form of the token encoding. -/
def encode (id : Nat) : String := String.mk (encodeL id)

/-! ## Data model -/

/-- Modelled from the spec: the tagged value variant (§3, §9): scalar
string, ordered sequence, keyed mapping, or token placeholder. -/
inductive Value where
  | str : String → Value
  | arr : List Value → Value
  | map : List (String × Value) → Value
  | token : Nat → Value

/-- Modelled from the spec: the three token variants (§3).  A reference
token wraps a plain reference to a resource or an attribute of one, a
pseudo token wraps a deploy-time pseudo-parameter, and a lazy token wraps
a deferred value that may itself contain further tokens (it also covers
intrinsic tokens, whose deferred application is represented as the
intrinsic-keyed mapping the application resolves to). -/
inductive Token where
  | ref (target : String) : Token
  | att (target : String) (attr : String) : Token
  | pseudo (name : String) : Token
  | lazy (value : Value) : Token

/-- Modelled from the spec: the process-wide token registry (§4.1),
scoped explicitly per synthesis session (§9).  A token's identifier is
its index; entries are only ever appended. -/
def Registry := List Token

/-- Synthesis-time failures (§7). -/
inductive Err where
  | unregistered (id : Nat) : Err
  | resolutionCycle (chain : List Nat) : Err
  | refCycle (ids : List String) : Err
  | exhausted : Err

/-! ## Resolver -/

/-- The join intrinsic expression over an empty separator, as produced
for strings built from literal fragments and embedded tokens (§4.4). -/
def joinExpr (parts : List Value) : Value :=
  .map [("Fn::Join", .arr [.str "", .arr parts])]

/-- Reassemble scanned fragments with the resolved values of their token
fragments (in order) into the parts of a join expression. -/
def mergeFrags : List Frag → List Value → List Value
  | [], _ => []
  | .lit l :: fs, rvs => .str (String.mk l) :: mergeFrags fs rvs
  | .tok _ :: fs, rv :: rvs => rv :: mergeFrags fs rvs
  | .tok _ :: _, [] => []

/-- Modelled from the spec: the resolver (§4.4).  Recursively walks a
value; scalars free of tokens are returned as-is, sequences and mappings
are resolved element-wise with order and keys preserved, and tokens are
looked up in the registry and replaced by their resolved representation
(re-resolving lazy results, guarding resolution cycles through the
visitation path `vis`).  A string that is exactly one encoded token
resolves to that token's value unwrapped; a string mixing literals and
tokens resolves to a join intrinsic over the fragments in order.
Fueled by structural recursion; ample fuel makes `exhausted` unreachable. -/
def resolveVal (reg : Registry) : Nat → List Nat → Value → Except Err Value
  | 0, _, _ => .error .exhausted
  | fuel + 1, vis, .str s =>
    match scan s with
    | [.tok id] => resolveVal reg fuel vis (.token id)
    | frags =>
      if (tokIds frags).isEmpty then .ok (.str s)
      else
        match resolveVal reg fuel vis (.arr ((tokIds frags).map Value.token)) with
        | .ok (.arr rvs) => .ok (joinExpr (mergeFrags frags rvs))
        | .ok _ => .error .exhausted
        | .error e => .error e
  | _ + 1, _, .arr [] => .ok (.arr [])
  | fuel + 1, vis, .arr (x :: xs) =>
    match resolveVal reg fuel vis x, resolveVal reg fuel vis (.arr xs) with
    | .ok hd, .ok (.arr tl) => .ok (.arr (hd :: tl))
    | .ok _, .ok _ => .error .exhausted
    | .error e, _ => .error e
    | _, .error e => .error e
  | _ + 1, _, .map [] => .ok (.map [])
  | fuel + 1, vis, .map ((k, v) :: kvs) =>
    match resolveVal reg fuel vis v, resolveVal reg fuel vis (.map kvs) with
    | .ok rv, .ok (.map tl) => .ok (.map ((k, rv) :: tl))
    | .ok _, .ok _ => .error .exhausted
    | .error e, _ => .error e
    | _, .error e => .error e
  | fuel + 1, vis, .token id =>
    if id ∈ vis then .error (.resolutionCycle (id :: vis))
    else
      match reg.get? id with
      | none => .error (.unregistered id)
      | some (.ref target) => .ok (.map [("Ref", .str target)])
      | some (.att target attr) =>
        .ok (.map [("Fn::GetAtt", .arr [.str target, .str attr])])
      | some (.pseudo name) => .ok (.map [("Ref", .str name)])
      | some (.lazy v) => resolveVal reg fuel (id :: vis) v

/-- A value contains no tokens anywhere in its tree: no token node, and
no string with an embedded token.  Fueled in step with `resolveVal`. -/
def tokenFreeAux : Nat → Value → Bool
  | 0, _ => false
  | _ + 1, .str s => (tokIds (scan s)).isEmpty
  | _ + 1, .arr [] => true
  | fuel + 1, .arr (x :: xs) => tokenFreeAux fuel x && tokenFreeAux fuel (.arr xs)
  | _ + 1, .map [] => true
  | fuel + 1, .map ((_, v) :: kvs) =>
    tokenFreeAux fuel v && tokenFreeAux fuel (.map kvs)
  | _ + 1, .token _ => false

/-! ## Resources, reference graph, emission -/

/-- Modelled from the spec: a construct/resource node (§3) — logical id,
type name, property tree, deletion and update-replace policies, metadata
mapping, and explicit extra depends-on declarations. -/
structure Resource where
  logicalId : String
  type : String
  properties : Value
  deletionPolicy : Option String
  updateReplacePolicy : Option String
  metadata : Option Value
  dependsOn : List String

/-- Modelled from the spec: reference discovery (§4.3) — deep-walk a
property tree and collect the logical ids of every resource a token in
it denotes a dependency on (reference and attribute tokens directly,
lazy tokens through their constituent value; pseudo tokens denote none). -/
def refTargets (reg : Registry) : Nat → Value → List String
  | 0, _ => []
  | fuel + 1, .str s => refTargets reg fuel (.arr ((tokIds (scan s)).map Value.token))
  | _ + 1, .arr [] => []
  | fuel + 1, .arr (x :: xs) => refTargets reg fuel x ++ refTargets reg fuel (.arr xs)
  | _ + 1, .map [] => []
  | fuel + 1, .map ((_, v) :: kvs) =>
    refTargets reg fuel v ++ refTargets reg fuel (.map kvs)
  | fuel + 1, .token id =>
    match reg.get? id with
    | some (.ref target) => [target]
    | some (.att target _) => [target]
    | some (.lazy v) => refTargets reg fuel v
    | some (.pseudo _) => []
    | none => []

/-- Dependencies of one resource: token-derived targets from its property
tree united with its explicit depends-on declarations, duplicates removed
and self-edges silently dropped (§4.3). -/
def resourceDeps (reg : Registry) (fuel : Nat) (r : Resource) : List String :=
  ((refTargets reg fuel r.properties ++ r.dependsOn).dedup).filter
    fun t => t ≠ r.logicalId

/-- Modelled from the spec: the reference graph (§4.3) as a list of
directed edges `(source logical id, target logical id)`. -/
def refEdges (reg : Registry) (fuel : Nat) (rs : List Resource) :
    List (String × String) :=
  rs.flatMap fun r => (resourceDeps reg fuel r).map fun t => (r.logicalId, t)

/-- Does node `n` have an edge into the remaining node set? -/
def hasOutEdge (edges : List (String × String)) (rem : List String)
    (n : String) : Bool :=
  edges.any fun e => e.1 == n && rem.any (fun m => m == e.2)

/-- Cycle detection by iterated sink elimination: repeatedly discard the
nodes with no outgoing edge into the remaining set; the fixed point is
empty exactly when the graph admits a topological order, and otherwise
holds the resources participating in (or reaching) a cycle. -/
def peel : Nat → List (String × String) → List String → List String
  | 0, _, rem => rem
  | fuel + 1, edges, rem =>
    let keep := rem.filter (hasOutEdge edges rem)
    if keep.length == rem.length then rem else peel fuel edges keep

/-- A nonempty node set in which every node has an out-edge to a node of
the set; such a set exists in a finite graph exactly when the graph
contains a cycle. -/
def cycleWitness (edges : List (String × String)) (c : List String) : Bool :=
  !c.isEmpty &&
    c.all fun n => edges.any fun e => e.1 == n && c.any (fun m => m == e.2)

/-- Modelled from the spec: one emitted resource entry (§4.5, §6) — a
mapping with the type name and the resolved properties, and the optional
depends-on list, metadata, deletion policy and update-replace policy as
top-level siblings of the properties mapping.  The two policies are
copied through verbatim; an absent policy produces no key. -/
def entryKVs (r : Resource) (props : Value) (md : Option Value) :
    List (String × Value) :=
  [("Type", .str r.type), ("Properties", props)]
  ++ (match r.dependsOn with
      | [] => []
      | ds => [("DependsOn", .arr (ds.map .str))])
  ++ (match md with | some m => [("Metadata", m)] | none => [])
  ++ (match r.deletionPolicy with
      | some p => [("DeletionPolicy", .str p)] | none => [])
  ++ (match r.updateReplacePolicy with
      | some p => [("UpdateReplacePolicy", .str p)] | none => [])

/-- First value bound to key `k` in a keyed mapping, if any. -/
def lookupV (k : String) : List (String × Value) → Option Value
  | [] => none
  | (k2, v) :: rest => if k = k2 then some v else lookupV k rest

/-- Emit one resource: resolve its property tree and metadata (§4.5) and
build its entry. -/
def emitEntry (reg : Registry) (fuel : Nat) (r : Resource) :
    Except Err (String × Value) :=
  match resolveVal reg fuel [] r.properties with
  | .error e => .error e
  | .ok props =>
    match r.metadata with
    | none => .ok (r.logicalId, .map (entryKVs r props none))
    | some m =>
      match resolveVal reg fuel [] m with
      | .error e => .error e
      | .ok rm => .ok (r.logicalId, .map (entryKVs r props (some rm)))

/-- Emit every resource entry in order. -/
def emitAll (reg : Registry) (fuel : Nat) :
    List Resource → Except Err (List (String × Value))
  | [] => .ok []
  | r :: rs =>
    match emitEntry reg fuel r, emitAll reg fuel rs with
    | .ok e, .ok es => .ok (e :: es)
    | .error e, _ => .error e
    | _, .error e => .error e

/-- Modelled from the spec: the full synthesis pass (§2, §4.5, §7) —
build the reference graph, fail with a reference-cycle error naming the
participating resource ids before any emission when the graph has a
cycle, and otherwise emit the resources as a keyed mapping under
`Resources`. -/
def synthesize (reg : Registry) (fuel : Nat) (rs : List Resource) :
    Except Err Value :=
  let ids := rs.map fun r => r.logicalId
  let leftover := peel ids.length (refEdges reg fuel rs) ids
  if leftover.isEmpty then
    match emitAll reg fuel rs with
    | .ok entries => .ok (.map [("Resources", .map entries)])
    | .error e => .error e
  else .error (.refCycle leftover)

/-- Canonical serialization of an emitted document to bytes (JSON-shaped,
insertion-ordered keys); used to state byte-identical reproducibility. -/
def serializeAux : Nat → Value → String
  | 0, _ => ""
  | _ + 1, .str s => "\"" ++ s ++ "\""
  | _ + 1, .arr [] => "[]"
  | fuel + 1, .arr (x :: xs) =>
    "[" ++ serializeAux fuel x ++ (if xs.isEmpty then "" else ",")
        ++ (serializeAux fuel (.arr xs)).drop 1
  | _ + 1, .map [] => "\x7b\x7d"
  | fuel + 1, .map ((k, v) :: kvs) =>
    "\x7b" ++ ("\"" ++ k ++ "\":" ++ serializeAux fuel v)
        ++ (if kvs.isEmpty then "" else ",")
        ++ (serializeAux fuel (.map kvs)).drop 1
  | _ + 1, .token id => "\"" ++ String.mk (encodeL id) ++ "\""

/-- Modelled from the spec: one full resolve-and-emit pass as a function
of the registry state (§5).  Token creation happens only during graph
construction; resolution and emission perform no registration, so the
pass returns the registry unchanged alongside the serialized document. -/
def synthPass (reg : Registry) (fuel sfuel : Nat) (rs : List Resource) :
    Registry × Except Err String :=
  (reg, (synthesize reg fuel rs).map (serializeAux sfuel))

/-! ## The example input and output of the specification -/

/-- Registry for the example: the bucket encryption's attribute token
(id 0), the metadata's plain reference token (id 1), and the two
pseudo-parameters of the key policy principal (ids 2 and 3). -/
def exampleReg : Registry :=
  [.att "Key" "Arn", .ref "Key", .pseudo "AWS::Partition",
   .pseudo "AWS::AccountId"]

/-- The example KMS key resource: a key policy whose principal embeds the
partition and account pseudo-parameter tokens inside a literal string,
and `Delete`/`Delete` policies. -/
def keyResource : Resource := {
  logicalId := "Key"
  type := "AWS::KMS::Key"
  properties := .map [("KeyPolicy", .map [
    ("Statement", .arr [.map [
      ("Action", .arr [.str "kms:*"]),
      ("Effect", .str "Allow"),
      ("Principal", .map [("AWS",
        .str ("arn:" ++ encode 2 ++ ":iam::" ++ encode 3 ++ ":root"))]),
      ("Resource", .str "*")]]),
    ("Version", .str "2012-10-17")])]
  deletionPolicy := some "Delete"
  updateReplacePolicy := some "Delete"
  metadata := none
  dependsOn := [] }

/-- The example S3 bucket resource: its encryption configuration holds
the key's ARN attribute token, its metadata references the key both by
plain reference and by attribute lookup, and its policies are
`Retain`/`Retain`. -/
def bucketResource : Resource := {
  logicalId := "Bucket"
  type := "AWS::S3::Bucket"
  properties := .map [("BucketEncryption", .map
    [("ServerSideEncryptionConfiguration", .arr [
      .map [("ServerSideEncryptionByDefault", .map [
        ("KMSMasterKeyID", .str (encode 0)),
        ("SSEAlgorithm", .str "aws:kms")])]])])]
  deletionPolicy := some "Retain"
  updateReplacePolicy := some "Retain"
  metadata := some (.map [
    ("Object1", .str "Location1"),
    ("KeyRef", .str (encode 1)),
    ("KeyArn", .str (encode 0))])
  dependsOn := [] }

/-- The example output template, transcribed from the repository's
example document (`part_000`). -/
def expectedTemplate : Value := .map [("Resources", .map [
  ("Key", .map [
    ("Type", .str "AWS::KMS::Key"),
    ("Properties", .map [("KeyPolicy", .map [
      ("Statement", .arr [.map [
        ("Action", .arr [.str "kms:*"]),
        ("Effect", .str "Allow"),
        ("Principal", .map [("AWS", joinExpr [
          .str "arn:", .map [("Ref", .str "AWS::Partition")],
          .str ":iam::", .map [("Ref", .str "AWS::AccountId")],
          .str ":root"])]),
        ("Resource", .str "*")]]),
      ("Version", .str "2012-10-17")])]),
    ("DeletionPolicy", .str "Delete"),
    ("UpdateReplacePolicy", .str "Delete")]),
  ("Bucket", .map [
    ("Type", .str "AWS::S3::Bucket"),
    ("Properties", .map [("BucketEncryption", .map
      [("ServerSideEncryptionConfiguration", .arr [
        .map [("ServerSideEncryptionByDefault", .map [
          ("KMSMasterKeyID",
            .map [("Fn::GetAtt", .arr [.str "Key", .str "Arn"])]),
          ("SSEAlgorithm", .str "aws:kms")])]])])]),
    ("Metadata", .map [
      ("Object1", .str "Location1"),
      ("KeyRef", .map [("Ref", .str "Key")]),
      ("KeyArn", .map [("Fn::GetAtt", .arr [.str "Key", .str "Arn"])])]),
    ("DeletionPolicy", .str "Retain"),
    ("UpdateReplacePolicy", .str "Retain")])])]

/-- Registry for the three-resource reference cycle: each token is a
plain reference to the next resource in the chain. -/
def cycleReg : Registry := [.ref "B", .ref "C", .ref "A"]

/-- Resource `A`, whose property embeds a reference to `B`. -/
def resA : Resource := ⟨"A", "T", .str (encode 0), none, none, none, []⟩

/-- Resource `B`, whose property embeds a reference to `C`. -/
def resB : Resource := ⟨"B", "T", .str (encode 1), none, none, none, []⟩

/-- Resource `C`, whose property embeds a reference to `A`. -/
def resC : Resource := ⟨"C", "T", .str (encode 2), none, none, none, []⟩

end Cdk

namespace Lambda

/-!
## The NodejsFunction construct

Embedded from `packages/@aws-cdk/aws-lambda-nodejs/lib/function.ts`.
File-system existence, lock-file discovery (`findUp`), the running
Node.js major version (`nodeMajorVersion`) and the stack-trace-derived
defining file (`findDefiningFile`) are ambient effects supplied by the
surrounding process; they are embedded as an explicit environment record.
-/

/-- Runtime families of the `aws-lambda` package. -/
inductive RuntimeFamily where
  | nodejs | python | java | dotnetCore | go | ruby | other
deriving DecidableEq

/-- A lambda runtime: a name and its family. -/
structure Runtime where
  name : String
  family : RuntimeFamily
deriving DecidableEq

/-- The `NODEJS_12_X` runtime. -/
def NODEJS_12_X : Runtime := ⟨"nodejs12.x", .nodejs⟩

/-- The `NODEJS_10_X` runtime. -/
def NODEJS_10_X : Runtime := ⟨"nodejs10.x", .nodejs⟩

/-- The properties of a `NodejsFunction` used by its constructor. -/
structure NodejsFunctionProps where
  entry : Option String := none
  handler : Option String := none
  runtime : Option Runtime := none
  awsSdkConnectionReuse : Option Bool := none
  depsLockFilePath : Option String := none

/-- Ambient process state consulted by the constructor: file existence,
the results of walking parent directories for `yarn.lock` and
`package-lock.json`, the running Node.js major version, and the file the
construct is defined in (`none` when `findDefiningFile` fails). -/
structure SysEnv where
  fsExists : String → Bool
  findUpYarnLock : Option String
  findUpNpmLock : Option String
  nodeMajor : Nat
  definingFile : Option String

/-- `path.extname`: the substring of the basename from its last dot, or
empty when the basename has no dot or only a leading one. -/
def extname (p : String) : String :=
  let revBase := p.data.reverse.takeWhile fun c => c ≠ '/'
  let afterDot := revBase.takeWhile fun c => c ≠ '.'
  if afterDot.length + 1 < revBase.length then String.mk ('.' :: afterDot.reverse)
  else ""

/-- `definingFile.replace(new RegExp(extname + "$"), "." + id + newExt)`:
the regex is anchored at the end and its dots match any character, so it
strips the last `extname.length` characters (appending when there is no
extension) and attaches `.id` plus the new extension. -/
def candidateFile (df id newExt : String) : String :=
  let ext := extname df
  if ext.data.isEmpty then df ++ "." ++ id ++ newExt
  else String.mk (df.data.take (df.data.length - ext.data.length))
    ++ "." ++ id ++ newExt

/-- Does `s` end with `suff`? -/
def strEndsWith (s suff : String) : Bool :=
  Cdk.startsWithL suff.data.reverse s.data.reverse

/-- The check `/\.(jsx?|tsx?)$/.test(entry)`: the entry ends in `.js`,
`.jsx`, `.ts` or `.tsx`. -/
def hasAllowedExt (e : String) : Bool :=
  strEndsWith e ".js" || strEndsWith e ".jsx" ||
  strEndsWith e ".ts" || strEndsWith e ".tsx"

/-- `findEntry` from `function.ts`: an explicitly given entry must have a
JavaScript or TypeScript extension and exist; otherwise candidates are
derived from the defining file's name with the construct id as suffix,
the `.ts` candidate checked before the `.js` one. -/
def findEntry (env : SysEnv) (id : String) (entry : Option String) :
    Except String String :=
  match entry with
  | some e =>
    if !hasAllowedExt e then
      .error "Only JavaScript or TypeScript entry files are supported."
    else if !env.fsExists e then
      .error ("Cannot find entry file at " ++ e)
    else .ok e
  | none =>
    match env.definingFile with
    | none => .error "Cannot find defining file."
    | some df =>
      let tsHandlerFile := candidateFile df id ".ts"
      if env.fsExists tsHandlerFile then .ok tsHandlerFile
      else
        let jsHandlerFile := candidateFile df id ".js"
        if env.fsExists jsHandlerFile then .ok jsHandlerFile
        else .error "Cannot find entry file."

/-- The lock-file step of the constructor: a given `depsLockFilePath`
must exist; otherwise `findUp(yarn.lock) ?? findUp(package-lock.json)`
must find one. -/
def resolveLockFile (env : SysEnv) (props : NodejsFunctionProps) :
    Except String String :=
  match props.depsLockFilePath with
  | some p =>
    if !env.fsExists p then
      .error ("Lock file at " ++ p ++ " doesn\x27t exist")
    else .ok p
  | none =>
    match env.findUpYarnLock with
    | some lf => .ok lf
    | none =>
      match env.findUpNpmLock with
      | some lf => .ok lf
      | none =>
        .error "Cannot find a package lock file (`yarn.lock` or `package-lock.json`). Please specify it with `depsFileLockPath`."

/-- The configuration assembled by the constructor and passed to the
underlying `lambda.Function` (bundling itself is an external
collaborator and is not modelled). -/
structure FunctionConfig where
  runtime : Runtime
  entry : String
  handler : String
  depsLockFilePath : String
  connectionReuseEnv : Bool
deriving DecidableEq

/-- The constructor body after the runtime-family guard: find the lock
file, find the entry, and assemble the configuration with the defaulted
handler, runtime and connection-reuse setting. -/
def nodejsFunctionRest (env : SysEnv) (id : String)
    (props : NodejsFunctionProps) : Except String FunctionConfig :=
  match resolveLockFile env props with
  | .error e => .error e
  | .ok depsLockFilePath =>
    match findEntry env id props.entry with
    | .error e => .error e
    | .ok entry =>
      .ok {
        runtime := props.runtime.getD
          (if 12 ≤ env.nodeMajor then NODEJS_12_X else NODEJS_10_X)
        entry
        handler := "index." ++ props.handler.getD "handler"
        depsLockFilePath
        connectionReuseEnv := props.awsSdkConnectionReuse.getD true }

/-- The `NodejsFunction` constructor: the runtime-family guard runs first
and rejects any non-NODEJS runtime before any other work. -/
def nodejsFunction (env : SysEnv) (id : String)
    (props : NodejsFunctionProps) : Except String FunctionConfig :=
  match props.runtime with
  | some r =>
    if r.family = RuntimeFamily.nodejs then nodejsFunctionRest env id props
    else .error "Only `NODEJS` runtimes are supported."
  | none => nodejsFunctionRest env id props

end Lambda

namespace Cdk

/-! ## Digit rendering and parsing lemmas -/

theorem charVal_digitChar (d : Nat) (h : d < 10) : charVal (digitChar d) = d := by
  interval_cases d <;> decide

theorem digitChar_isDigit (d : Nat) : (digitChar d).isDigit = true := by
  unfold digitChar
  split_ifs <;> decide

theorem natDigitsAux_isDigit (fuel : Nat) :
    ∀ (n : Nat) (acc : List Char), (∀ c ∈ acc, c.isDigit = true) →
      ∀ c ∈ natDigitsAux fuel n acc, c.isDigit = true := by
  induction fuel with
  | zero => intro n acc hacc c hc; exact hacc c hc
  | succ f ih =>
    intro n acc hacc c hc
    by_cases h10 : n < 10
    · simp only [natDigitsAux, if_pos h10, List.mem_cons] at hc
      rcases hc with rfl | hc
      · exact digitChar_isDigit n
      · exact hacc c hc
    · simp only [natDigitsAux, if_neg h10] at hc
      refine ih (n / 10) (digitChar (n % 10) :: acc) ?_ c hc
      intro d hd
      rw [List.mem_cons] at hd
      rcases hd with rfl | hd
      · exact digitChar_isDigit (n % 10)
      · exact hacc d hd

theorem natDigits_isDigit (n : Nat) : ∀ c ∈ natDigits n, c.isDigit = true :=
  natDigitsAux_isDigit (n + 1) n [] (by intro c hc; cases hc)

theorem natDigitsAux_length (fuel : Nat) :
    ∀ (n : Nat) (acc : List Char),
      acc.length ≤ (natDigitsAux fuel n acc).length := by
  induction fuel with
  | zero => intro n acc; exact Nat.le_refl _
  | succ f ih =>
    intro n acc
    by_cases h10 : n < 10
    · simp [natDigitsAux, if_pos h10]
    · simp only [natDigitsAux, if_neg h10]
      calc acc.length ≤ (digitChar (n % 10) :: acc).length := by simp
        _ ≤ _ := ih (n / 10) _

theorem natDigits_ne_nil (n : Nat) : natDigits n ≠ [] := by
  unfold natDigits natDigitsAux
  by_cases h10 : n < 10
  · simp [if_pos h10]
  · simp only [if_neg h10]
    intro hnil
    have := natDigitsAux_length n (n / 10) [digitChar (n % 10)]
    rw [hnil] at this
    simp at this

/-- Power-of-ten helper: `pwAux fuel n` is ten to the number of decimal
digits of `n` (for adequate fuel). -/
def pwAux : Nat → Nat → Nat
  | 0, _ => 10
  | fuel + 1, n => if n < 10 then 10 else 10 * pwAux fuel (n / 10)

/-- Ten to the number of decimal digits of `n`. -/
def pw (n : Nat) : Nat := pwAux n n

theorem pwAux_irrel : ∀ (f g n : Nat), n ≤ f → n ≤ g → pwAux f n = pwAux g n := by
  intro f
  induction f with
  | zero =>
    intro g n hf hg
    have hn : n = 0 := Nat.le_zero.mp hf
    subst hn
    cases g with
    | zero => rfl
    | succ g => simp [pwAux]
  | succ f ih =>
    intro g n hf hg
    cases g with
    | zero =>
      have hn : n = 0 := Nat.le_zero.mp hg
      subst hn; simp [pwAux]
    | succ g =>
      by_cases h10 : n < 10
      · simp [pwAux, if_pos h10]
      · simp only [pwAux, if_neg h10]
        have hlt : n / 10 < n := Nat.div_lt_self (by omega) (by omega)
        rw [ih g (n / 10) (by omega) (by omega)]

theorem pw_lt10 (n : Nat) (h : n < 10) : pw n = 10 := by
  unfold pw
  cases n with
  | zero => rfl
  | succ m => simp [pwAux, if_pos h]

theorem pw_ge10 (n : Nat) (h : 10 ≤ n) : pw n = 10 * pw (n / 10) := by
  unfold pw
  cases n with
  | zero => omega
  | succ m =>
    simp only [pwAux, if_neg (by omega : ¬ m + 1 < 10)]
    have hlt : (m + 1) / 10 < m + 1 := Nat.div_lt_self (by omega) (by omega)
    rw [pwAux_irrel m ((m + 1) / 10) ((m + 1) / 10) (by omega) (Nat.le_refl _)]

theorem natDigitsAux_foldl (n : Nat) :
    ∀ (fuel : Nat) (acc : List Char) (a : Nat), n < fuel →
      List.foldl (fun a c => a * 10 + charVal c) a (natDigitsAux fuel n acc)
        = List.foldl (fun a c => a * 10 + charVal c) (a * pw n + n) acc := by
  induction n using Nat.strong_induction_on with
  | _ n ih =>
    intro fuel acc a hfuel
    cases fuel with
    | zero => omega
    | succ f =>
      by_cases h10 : n < 10
      · simp only [natDigitsAux, if_pos h10, List.foldl_cons,
          charVal_digitChar n h10, pw_lt10 n h10]
      · simp only [natDigitsAux, if_neg h10]
        have hdiv : n / 10 < n := Nat.div_lt_self (by omega) (by omega)
        rw [ih (n / 10) hdiv f (digitChar (n % 10) :: acc) a (by omega)]
        simp only [List.foldl_cons, charVal_digitChar (n % 10) (by omega)]
        congr 1
        rw [pw_ge10 n (by omega)]
        have hdm : n / 10 * 10 + n % 10 = n := by omega
        calc (a * pw (n / 10) + n / 10) * 10 + n % 10
            = a * pw (n / 10) * 10 + (n / 10 * 10 + n % 10) := by ring
          _ = a * (10 * pw (n / 10)) + n := by rw [hdm]; ring

theorem parseFold_natDigits (n : Nat) : parseFold (natDigits n) = n := by
  unfold parseFold natDigits
  rw [natDigitsAux_foldl n (n + 1) [] 0 (Nat.lt_succ_self n)]
  simp

/-! ## Scanner lemmas -/

theorem readDigits_spec :
    ∀ (ds r : List Char), (∀ c ∈ ds, c.isDigit = true) →
      readDigits (ds ++ ']' :: r) = (ds, ']' :: r) := by
  intro ds
  induction ds with
  | nil =>
    intro r _
    simp [readDigits]
  | cons c cs ih =>
    intro r h
    have hc : c.isDigit = true := h c (by simp)
    have ihr := ih r fun d hd => h d (by simp [hd])
    simp only [List.cons_append, readDigits, if_pos hc, List.append_eq]
    rw [ihr]

theorem readDigits_length :
    ∀ l : List Char, (readDigits l).1.length + (readDigits l).2.length = l.length := by
  intro l
  induction l with
  | nil => rfl
  | cons c cs ih =>
    by_cases hc : c.isDigit
    · simp only [readDigits, if_pos hc, List.length_cons]
      omega
    · simp [readDigits, if_neg hc]

theorem startsWithL_self : ∀ (p l : List Char), startsWithL p (p ++ l) = true := by
  intro p
  induction p with
  | nil => intro l; rfl
  | cons c cs ih => intro l; simp [startsWithL, ih]

theorem scanAux_nil (fuel : Nat) (acc : List Char) :
    scanAux fuel acc [] = pushLit acc [] := by
  cases fuel <;> rfl

theorem tokIds_pushLit (acc : List Char) (r : List Frag) :
    tokIds (pushLit acc r) = tokIds r := by
  unfold pushLit
  split
  · rfl
  · simp [tokIds]

end Cdk

namespace Cdk

theorem length_pos_of_isEmpty_false {α : Type} (l : List α)
    (h : l.isEmpty = false) : 0 < l.length := by
  cases l with
  | nil => simp [List.isEmpty] at h
  | cons x xs => simp

theorem scanAux_cons (fuel : Nat) (acc : List Char) (c : Char) (cs : List Char) :
    scanAux (fuel + 1) acc (c :: cs) =
      if startsWithL markerL (c :: cs) then
        if !(readDigits ((c :: cs).drop markerL.length)).1.isEmpty &&
            startsWithL markerR (readDigits ((c :: cs).drop markerL.length)).2 then
          pushLit acc
            (.tok (parseFold (readDigits ((c :: cs).drop markerL.length)).1) ::
              scanAux fuel []
                ((readDigits ((c :: cs).drop markerL.length)).2.drop markerR.length))
        else scanAux fuel (c :: acc) cs
      else scanAux fuel (c :: acc) cs := rfl

theorem scanAux_irrel (N : Nat) :
    ∀ (rem : List Char) (f g : Nat) (acc : List Char),
      rem.length ≤ N → rem.length ≤ f → rem.length ≤ g →
      scanAux f acc rem = scanAux g acc rem := by
  induction N with
  | zero =>
    intro rem f g acc hN _ _
    have hrem : rem = [] := List.eq_nil_of_length_eq_zero (Nat.le_zero.mp hN)
    subst hrem
    rw [scanAux_nil, scanAux_nil]
  | succ N ih =>
    intro rem f g acc hN hf hg
    cases rem with
    | nil => rw [scanAux_nil, scanAux_nil]
    | cons c cs =>
      rw [List.length_cons] at hN hf hg
      cases f with
      | zero => omega
      | succ f =>
        cases g with
        | zero => omega
        | succ g =>
          rw [scanAux_cons, scanAux_cons]
          by_cases h1 : startsWithL markerL (c :: cs) = true
          · rw [if_pos h1, if_pos h1]
            by_cases h2 : (!(readDigits ((c :: cs).drop markerL.length)).1.isEmpty &&
                startsWithL markerR (readDigits ((c :: cs).drop markerL.length)).2) = true
            · rw [if_pos h2, if_pos h2]
              have h2a := (Bool.and_eq_true _ _).mp h2
              have h1len : 0 < (readDigits ((c :: cs).drop markerL.length)).1.length :=
                length_pos_of_isEmpty_false _ (Bool.not_eq_true' .. ▸ h2a.1)
              have hrd := readDigits_length ((c :: cs).drop markerL.length)
              have hml : markerL.length = 8 := rfl
              have hmr : markerR.length = 2 := rfl
              have hdl : ((c :: cs).drop markerL.length).length
                  = (c :: cs).length - markerL.length := List.length_drop ..
              rw [List.length_cons] at hdl
              have hrl : ((readDigits ((c :: cs).drop markerL.length)).2.drop
                    markerR.length).length
                  = (readDigits ((c :: cs).drop markerL.length)).2.length
                    - markerR.length := List.length_drop ..
              rw [ih ((readDigits ((c :: cs).drop markerL.length)).2.drop
                    markerR.length) f g [] (by omega) (by omega) (by omega)]
            · rw [if_neg h2, if_neg h2]
              exact ih cs f g (c :: acc) (by omega) (by omega) (by omega)
          · rw [if_neg h1, if_neg h1]
            exact ih cs f g (c :: acc) (by omega) (by omega) (by omega)

theorem scanA_nil (acc : List Char) : scanA acc [] = pushLit acc [] := rfl

theorem scanA_cons_lit (c : Char) (cs acc : List Char) (hc : c ≠ '$') :
    scanA acc (c :: cs) = scanA (c :: acc) cs := by
  show scanAux (cs.length + 1) acc (c :: cs) = scanAux cs.length (c :: acc) cs
  rw [scanAux_cons]
  have h1 : startsWithL markerL (c :: cs) = false := by
    show (('$' == c) && startsWithL ['\x7b', 'T', 'o', 'k', 'e', 'n', '['] cs) = false
    have : ('$' == c) = false := by
      rw [beq_eq_false_iff_ne]
      exact fun h => hc h.symm
    rw [this, Bool.false_and]
  rw [h1]
  simp only [Bool.false_eq_true, if_false]

theorem scanA_lit_chain (lit : List Char) :
    ∀ (acc rem : List Char), (∀ c ∈ lit, c ≠ '$') →
      scanA acc (lit ++ rem) = scanA (lit.reverse ++ acc) rem := by
  induction lit with
  | nil => intro acc rem _; simp
  | cons c cs ih =>
    intro acc rem h
    rw [List.cons_append, scanA_cons_lit c (cs ++ rem) acc (h c (by simp)),
      ih (c :: acc) rem fun d hd => h d (by simp [hd])]
    simp

theorem scanA_marker (n : Nat) (acc rest : List Char) :
    scanA acc (markerL ++ (natDigits n ++ (markerR ++ rest)))
      = pushLit acc (.tok n :: scanA [] rest) := by
  have hndd := natDigits_isDigit n
  have hnn := natDigits_ne_nil n
  have hrd : readDigits (natDigits n ++ (markerR ++ rest))
      = (natDigits n, ']' :: '\x7d' :: rest) := by
    have : markerR ++ rest = ']' :: '\x7d' :: rest := rfl
    rw [this]
    exact readDigits_spec (natDigits n) ('\x7d' :: rest) hndd
  have hlen : (markerL ++ (natDigits n ++ (markerR ++ rest))).length
      = (natDigits n).length + rest.length + 10 := by
    simp [markerL, markerR]
    omega
  have hpos : 0 < (natDigits n).length := List.length_pos.mpr hnn
  show scanAux (markerL ++ (natDigits n ++ (markerR ++ rest))).length acc
      (markerL ++ (natDigits n ++ (markerR ++ rest))) = _
  rw [hlen]
  have hsplit : (natDigits n).length + rest.length + 10
      = ((natDigits n).length + rest.length + 9) + 1 := by omega
  rw [hsplit]
  have hcons : markerL ++ (natDigits n ++ (markerR ++ rest))
      = '$' :: ('\x7b' :: 'T' :: 'o' :: 'k' :: 'e' :: 'n' :: '[' ::
          (natDigits n ++ (markerR ++ rest))) := rfl
  rw [hcons, scanAux_cons, ← hcons]
  have h1 : startsWithL markerL (markerL ++ (natDigits n ++ (markerR ++ rest)))
      = true := startsWithL_self ..
  rw [hcons] at h1 ⊢
  rw [if_pos h1]
  have hdrop : (('$' :: ('\x7b' :: 'T' :: 'o' :: 'k' :: 'e' :: 'n' :: '[' ::
      (natDigits n ++ (markerR ++ rest)))).drop markerL.length)
      = natDigits n ++ (markerR ++ rest) := rfl
  rw [hdrop, hrd]
  have hne : (natDigits n).isEmpty = false := by
    cases h : natDigits n with
    | nil => exact absurd h hnn
    | cons x xs => rfl
  rw [hne]
  have hsw : startsWithL markerR (']' :: '\x7d' :: rest) = true := by
    simp [startsWithL, markerR]
  rw [hsw]
  simp only [Bool.not_false, Bool.true_and, if_true]
  have hdrop2 : (']' :: '\x7d' :: rest).drop markerR.length = rest := rfl
  rw [hdrop2, parseFold_natDigits]
  congr 2
  exact scanAux_irrel ((natDigits n).length + rest.length + 9) rest
    ((natDigits n).length + rest.length + 9) rest.length []
    (by omega) (by omega) (by omega)

end Cdk

namespace Cdk

theorem scan_eq_scanA (s : String) : scan s = scanA [] s.data := rfl

theorem pushLit_nil (r : List Frag) : pushLit [] r = r := rfl

theorem scan_encode (n : Nat) : scan (encode n) = [.tok n] := by
  have hdata : (encode n).data = markerL ++ (natDigits n ++ (markerR ++ [])) := by
    show encodeL n = _
    simp [encodeL]
  rw [scan_eq_scanA, hdata, scanA_marker, scanA_nil, pushLit_nil, pushLit_nil]

theorem tokIds_scan_encode (n : Nat) : tokIds (scan (encode n)) = [n] := by
  rw [scan_encode]
  rfl

theorem scanAux_no_marker (fuel : Nat) :
    ∀ (acc rem : List Char), containsMarker rem = false →
      tokIds (scanAux fuel acc rem) = [] := by
  induction fuel with
  | zero => intro acc rem _; rw [show scanAux 0 acc rem = pushLit acc [] from rfl,
      tokIds_pushLit]; rfl
  | succ f ih =>
    intro acc rem h
    cases rem with
    | nil => rw [scanAux_nil, tokIds_pushLit]; rfl
    | cons c cs =>
      have h2 := h
      unfold containsMarker at h2
      rw [Bool.or_eq_false_iff] at h2
      rw [scanAux_cons, if_neg (by rw [h2.1]; exact Bool.false_ne_true)]
      exact ih (c :: acc) cs h2.2

theorem scan_token_free (s : String) (h : strTokenFree s = true) :
    tokIds (scan s) = [] := by
  unfold strTokenFree at h
  rw [Bool.not_eq_true'] at h
  exact scanAux_no_marker s.data.length [] s.data h

theorem scan_lit_tok_lit (n : Nat) :
    scanA [] ('a' :: '-' :: (markerL ++ (natDigits n ++ (markerR ++ ['-', 'b']))))
      = [.lit ['a', '-'], .tok n, .lit ['-', 'b']] := by
  have h1 : scanA [] ('a' :: '-' :: (markerL ++ (natDigits n ++ (markerR ++ ['-', 'b']))))
      = scanA ['-', 'a'] (markerL ++ (natDigits n ++ (markerR ++ ['-', 'b']))) := by
    rw [scanA_cons_lit 'a' _ [] (by decide), scanA_cons_lit '-' _ ['a'] (by decide)]
  rw [h1, scanA_marker]
  have h2 : scanA [] ['-', 'b'] = [.lit ['-', 'b']] := by
    rw [scanA_cons_lit '-' ['b'] [] (by decide), scanA_cons_lit 'b' [] ['-'] (by decide),
      scanA_nil]
    rfl
  rw [h2]
  rfl

end Cdk

namespace Cdk

theorem strData_append (a b : String) : (a ++ b).data = a.data ++ b.data := by
  cases a; cases b; rfl

theorem resolve_encode (reg : Registry) (fuel : Nat) (vis : List Nat) (id : Nat) :
    resolveVal reg (fuel + 1) vis (.str (encode id))
      = resolveVal reg fuel vis (.token id) := by
  simp only [resolveVal, scan_encode]

end Cdk

namespace Cdk

theorem resolve_token_get (reg : Registry) (fuel : Nat) (vis : List Nat) (id : Nat)
    (hvis : id ∉ vis) :
    resolveVal reg (fuel + 1) vis (.token id)
      = match reg.get? id with
        | none => .error (.unregistered id)
        | some (.ref target) => .ok (.map [("Ref", .str target)])
        | some (.att target attr) =>
          .ok (.map [("Fn::GetAtt", .arr [.str target, .str attr])])
        | some (.pseudo name) => .ok (.map [("Ref", .str name)])
        | some (.lazy v) => resolveVal reg fuel (id :: vis) v := by
  simp only [resolveVal, if_neg hvis]

theorem resolve_arr_nil (reg : Registry) (fuel : Nat) (vis : List Nat) :
    resolveVal reg (fuel + 1) vis (.arr []) = .ok (.arr []) := rfl

theorem resolve_token_free (reg : Registry) :
    ∀ (fuel : Nat) (vis : List Nat) (v : Value),
      tokenFreeAux fuel v = true → resolveVal reg fuel vis v = .ok v := by
  intro fuel
  induction fuel with
  | zero => intro vis v h; simp [tokenFreeAux] at h
  | succ f ih =>
    intro vis v h
    cases v with
    | str s =>
      have hids : (tokIds (scan s)).isEmpty = true := h
      simp only [resolveVal]
      split
      · next id heq =>
        rw [heq] at hids
        simp [tokIds] at hids
      · next =>
        rw [if_pos hids]
    | arr xs =>
      cases xs with
      | nil => rfl
      | cons x rest =>
        have h2 := (Bool.and_eq_true _ _).mp h
        simp only [resolveVal, ih vis x h2.1, ih vis (.arr rest) h2.2]
    | map kvs =>
      cases kvs with
      | nil => rfl
      | cons kv rest =>
        cases kv with
        | mk k v =>
          have h2 := (Bool.and_eq_true _ _).mp h
          simp only [resolveVal, ih vis v h2.1, ih vis (.map rest) h2.2]
    | token id => simp [tokenFreeAux] at h

end Cdk

namespace Cdk

theorem scan_lit_encode_lit (id : Nat) :
    scan ("a-" ++ encode id ++ "-b")
      = [.lit ['a', '-'], .tok id, .lit ['-', 'b']] := by
  have hdata : ("a-" ++ encode id ++ "-b").data
      = 'a' :: '-' :: (markerL ++ (natDigits id ++ (markerR ++ ['-', 'b']))) := by
    rw [strData_append, strData_append]
    show ['a', '-'] ++ encodeL id ++ ['-', 'b'] = _
    simp [encodeL, List.append_assoc]
  rw [scan_eq_scanA, hdata, scan_lit_tok_lit]

theorem resolve_arr_cons (reg : Registry) (fuel : Nat) (vis : List Nat)
    (x : Value) (xs : List Value) :
    resolveVal reg (fuel + 1) vis (.arr (x :: xs))
      = match resolveVal reg fuel vis x, resolveVal reg fuel vis (.arr xs) with
        | .ok hd, .ok (.arr tl) => .ok (.arr (hd :: tl))
        | .ok _, .ok _ => .error .exhausted
        | .error e, _ => .error e
        | _, .error e => .error e := rfl

theorem resolve_map_cons (reg : Registry) (fuel : Nat) (vis : List Nat)
    (k : String) (v : Value) (kvs : List (String × Value)) :
    resolveVal reg (fuel + 1) vis (.map ((k, v) :: kvs))
      = match resolveVal reg fuel vis v, resolveVal reg fuel vis (.map kvs) with
        | .ok rv, .ok (.map tl) => .ok (.map ((k, rv) :: tl))
        | .ok _, .ok _ => .error .exhausted
        | .error e, _ => .error e
        | _, .error e => .error e := rfl

theorem resolve_str_eq (reg : Registry) (fuel : Nat) (vis : List Nat) (s : String) :
    resolveVal reg (fuel + 1) vis (.str s)
      = match scan s with
        | [.tok id] => resolveVal reg fuel vis (.token id)
        | frags =>
          if (tokIds frags).isEmpty then .ok (.str s)
          else
            match resolveVal reg fuel vis (.arr ((tokIds frags).map Value.token)) with
            | .ok (.arr rvs) => .ok (joinExpr (mergeFrags frags rvs))
            | .ok _ => .error .exhausted
            | .error e => .error e := rfl

theorem resolve_lit_tok_lit (reg : Registry) (fuel : Nat) (vis : List Nat)
    (id : Nat) (rT : Value)
    (h : resolveVal reg (fuel + 1) vis (.token id) = .ok rT) :
    resolveVal reg (fuel + 3) vis (.str ("a-" ++ encode id ++ "-b"))
      = .ok (joinExpr [.str "a-", rT, .str "-b"]) := by
  have harr : resolveVal reg (fuel + 2) vis (.arr [.token id]) = .ok (.arr [rT]) := by
    show resolveVal reg (fuel + 1 + 1) vis (.arr (.token id :: [])) = _
    rw [resolve_arr_cons, h, resolve_arr_nil]
  show resolveVal reg (fuel + 2 + 1) vis (.str ("a-" ++ encode id ++ "-b")) = _
  rw [resolve_str_eq, scan_lit_encode_lit]
  split
  · next heq => exact absurd heq (by simp)
  · next =>
    have htid : tokIds [Frag.lit ['a', '-'], Frag.tok id, Frag.lit ['-', 'b']]
        = [id] := rfl
    rw [htid]
    rw [if_neg (by simp : ¬(List.isEmpty [id]) = true)]
    rw [show (List.map Value.token [id]) = [Value.token id] from rfl, harr]
    rfl

end Cdk

namespace Cdk

theorem cycleWitness_next (edges : List (String × String)) (c : List String)
    (h : cycleWitness edges c = true) :
    c ≠ [] ∧ ∀ n ∈ c, ∃ m, (n, m) ∈ edges ∧ m ∈ c := by
  unfold cycleWitness at h
  rw [Bool.and_eq_true] at h
  refine ⟨?_, ?_⟩
  · intro hnil
    subst hnil
    simp at h
  · intro n hn
    have h2 := List.all_eq_true.mp h.2 n hn
    rw [List.any_eq_true] at h2
    obtain ⟨e, he, hcond⟩ := h2
    rw [Bool.and_eq_true] at hcond
    have h1 : e.1 = n := by
      have := hcond.1
      rwa [beq_iff_eq] at this
    have h3 := hcond.2
    rw [List.any_eq_true] at h3
    obtain ⟨m, hm, hb⟩ := h3
    have h4 : m = e.2 := by rwa [beq_iff_eq] at hb
    refine ⟨e.2, ?_, h4 ▸ hm⟩
    have : (n, e.2) = e := by
      rw [← h1]
    rw [this]
    exact he

theorem peel_keeps (edges : List (String × String)) :
    ∀ (fuel : Nat) (rem c : List String),
      (∀ n ∈ c, ∃ m, (n, m) ∈ edges ∧ m ∈ c) → (∀ n ∈ c, n ∈ rem) →
      ∀ n ∈ c, n ∈ peel fuel edges rem := by
  intro fuel
  induction fuel with
  | zero => intro rem c _ hsub n hn; exact hsub n hn
  | succ f ih =>
    intro rem c hnext hsub n hn
    have hkeep : ∀ x ∈ c, x ∈ rem.filter (hasOutEdge edges rem) := by
      intro x hx
      rw [List.mem_filter]
      refine ⟨hsub x hx, ?_⟩
      obtain ⟨m, hedge, hmc⟩ := hnext x hx
      unfold hasOutEdge
      rw [List.any_eq_true]
      refine ⟨(x, m), hedge, ?_⟩
      rw [Bool.and_eq_true]
      refine ⟨by simp, ?_⟩
      rw [List.any_eq_true]
      exact ⟨m, hsub m hmc, by simp⟩
    show n ∈ (if ((rem.filter (hasOutEdge edges rem)).length == rem.length) = true
        then rem else peel f edges (rem.filter (hasOutEdge edges rem)))
    split
    · exact hsub n hn
    · exact ih (rem.filter (hasOutEdge edges rem)) c hnext hkeep n hn

theorem synth_cycle (reg : Registry) (fuel : Nat) (rs : List Resource)
    (c : List String) (h : cycleWitness (refEdges reg fuel rs) c = true)
    (hin : ∀ x ∈ c, x ∈ rs.map fun r => r.logicalId) :
    ∃ left, synthesize reg fuel rs = .error (.refCycle left) ∧ left ≠ [] ∧
      ∀ x ∈ c, x ∈ left := by
  obtain ⟨hne, hnext⟩ := cycleWitness_next _ _ h
  have hkeep : ∀ n ∈ c, n ∈ peel (rs.map fun r => r.logicalId).length
      (refEdges reg fuel rs) (rs.map fun r => r.logicalId) :=
    peel_keeps _ _ _ c hnext hin
  have hleftne : peel (rs.map fun r => r.logicalId).length
      (refEdges reg fuel rs) (rs.map fun r => r.logicalId) ≠ [] := by
    obtain ⟨n, hn⟩ := List.exists_mem_of_ne_nil c hne
    exact List.ne_nil_of_mem (hkeep n hn)
  refine ⟨_, ?_, hleftne, hkeep⟩
  unfold synthesize
  rw [if_neg]
  intro hemp
  exact hleftne (List.isEmpty_iff.mp hemp)

end Cdk

namespace Cdk

theorem entryKVs_lookups (r : Resource) (props : Value) (md : Option Value) :
    lookupV "Type" (entryKVs r props md) = some (.str r.type) ∧
    lookupV "Properties" (entryKVs r props md) = some props ∧
    lookupV "Metadata" (entryKVs r props md) = md ∧
    lookupV "DeletionPolicy" (entryKVs r props md)
      = r.deletionPolicy.map Value.str ∧
    lookupV "UpdateReplacePolicy" (entryKVs r props md)
      = r.updateReplacePolicy.map Value.str := by
  rcases r with ⟨lid, ty, prps, dp, urp, mdta, dep⟩
  cases dep <;> cases md <;> cases dp <;> cases urp <;>
    simp [entryKVs, lookupV]

theorem emitEntry_shape (reg : Registry) (fuel : Nat) (r : Resource)
    (entry : String × Value) (h : emitEntry reg fuel r = .ok entry) :
    entry.1 = r.logicalId ∧ ∃ kvs props, entry.2 = .map kvs ∧
      resolveVal reg fuel [] r.properties = .ok props ∧
      lookupV "Type" kvs = some (.str r.type) ∧
      lookupV "Properties" kvs = some props ∧
      lookupV "DeletionPolicy" kvs = r.deletionPolicy.map Value.str ∧
      lookupV "UpdateReplacePolicy" kvs = r.updateReplacePolicy.map Value.str ∧
      ((r.metadata = none ∧ lookupV "Metadata" kvs = none) ∨
        (∃ m rm, r.metadata = some m ∧ resolveVal reg fuel [] m = .ok rm ∧
          lookupV "Metadata" kvs = some rm)) := by
  unfold emitEntry at h
  cases hp : resolveVal reg fuel [] r.properties with
  | error e => rw [hp] at h; simp at h
  | ok props =>
    simp only [hp] at h
    cases hm : r.metadata with
    | none =>
      simp only [hm, Except.ok.injEq] at h
      subst h
      obtain ⟨l1, l2, l3, l4, l5⟩ := entryKVs_lookups r props none
      exact ⟨rfl, entryKVs r props none, props, rfl, rfl, l1, l2, l4, l5,
        Or.inl ⟨rfl, l3⟩⟩
    | some m =>
      simp only [hm] at h
      cases hmm : resolveVal reg fuel [] m with
      | error e => simp only [hmm] at h; simp at h
      | ok rm =>
        simp only [hmm, Except.ok.injEq] at h
        subst h
        obtain ⟨l1, l2, l3, l4, l5⟩ := entryKVs_lookups r props (some rm)
        exact ⟨rfl, entryKVs r props (some rm), props, rfl, rfl, l1, l2, l4, l5,
          Or.inr ⟨m, rm, rfl, hmm, l3⟩⟩

end Cdk

namespace Lambda

theorem lockMsg_ne (p : String) :
    ("Lock file at " ++ p ++ " doesn\x27t exist")
      ≠ "Only `NODEJS` runtimes are supported." := by
  intro h
  have h2 := congrArg (fun s : String => s.data.head?) h
  simp only at h2
  rw [Cdk.strData_append, Cdk.strData_append] at h2
  have hL : ((("Lock file at ").data ++ p.data) ++ (" doesn\x27t exist").data).head?
      = some 'L' := rfl
  rw [hL] at h2
  exact absurd h2 (by decide)

theorem entryMsg_ne (e : String) :
    ("Cannot find entry file at " ++ e)
      ≠ "Only `NODEJS` runtimes are supported." := by
  intro h
  have h2 := congrArg (fun s : String => s.data.head?) h
  simp only at h2
  rw [Cdk.strData_append] at h2
  have hC : ((("Cannot find entry file at ").data ++ e.data)).head? = some 'C' := rfl
  rw [hC] at h2
  exact absurd h2 (by decide)

theorem resolveLockFile_error_ne (env : SysEnv) (props : NodejsFunctionProps)
    (e : String) (h : resolveLockFile env props = .error e) :
    e ≠ "Only `NODEJS` runtimes are supported." := by
  unfold resolveLockFile at h
  cases hd : props.depsLockFilePath with
  | some p =>
    simp only [hd] at h
    by_cases hf : env.fsExists p = true
    · simp [hf] at h
    · rw [Bool.not_eq_true] at hf
      simp only [hf, Bool.not_false, if_pos] at h
      simp only [Except.error.injEq] at h
      subst h
      exact lockMsg_ne p
  | none =>
    simp only [hd] at h
    cases hy : env.findUpYarnLock with
    | some lf => simp [hy] at h
    | none =>
      simp only [hy] at h
      cases hn : env.findUpNpmLock with
      | some lf => simp [hn] at h
      | none =>
        simp only [hn, Except.error.injEq] at h
        subst h
        decide

theorem findEntry_error_ne (env : SysEnv) (id : String) (entry : Option String)
    (e : String) (h : findEntry env id entry = .error e) :
    e ≠ "Only `NODEJS` runtimes are supported." := by
  unfold findEntry at h
  cases he : entry with
  | some ent =>
    simp only [he] at h
    by_cases ha : hasAllowedExt ent = true
    · simp only [ha, Bool.not_true, Bool.false_eq_true, if_false] at h
      by_cases hf : env.fsExists ent = true
      · simp [hf] at h
      · rw [Bool.not_eq_true] at hf
        simp only [hf, Bool.not_false, if_pos, Except.error.injEq] at h
        subst h
        exact entryMsg_ne ent
    · rw [Bool.not_eq_true] at ha
      simp only [ha, Bool.not_false, if_pos, Except.error.injEq] at h
      subst h
      decide
  | none =>
    simp only [he] at h
    cases hdf : env.definingFile with
    | none =>
      simp only [hdf, Except.error.injEq] at h
      subst h
      decide
    | some df =>
      simp only [hdf] at h
      by_cases h1 : env.fsExists (candidateFile df id ".ts") = true
      · simp [h1] at h
      · rw [Bool.not_eq_true] at h1
        simp only [h1, Bool.false_eq_true, if_false] at h
        by_cases h2 : env.fsExists (candidateFile df id ".js") = true
        · simp [h2] at h
        · rw [Bool.not_eq_true] at h2
          simp only [h2, Bool.false_eq_true, if_false, Except.error.injEq] at h
          subst h
          decide

theorem rest_ne_runtime_error (env : SysEnv) (id : String)
    (props : NodejsFunctionProps) :
    nodejsFunctionRest env id props
      ≠ .error "Only `NODEJS` runtimes are supported." := by
  unfold nodejsFunctionRest
  cases hl : resolveLockFile env props with
  | error e =>
    intro h
    simp only [Except.error.injEq] at h
    exact resolveLockFile_error_ne env props e hl h
  | ok lf =>
    cases hf : findEntry env id props.entry with
    | error e =>
      intro h
      simp only [Except.error.injEq] at h
      exact findEntry_error_ne env id props.entry e hf h
    | ok ent => simp

theorem rest_ok_runtime (env : SysEnv) (id : String)
    (props : NodejsFunctionProps) (cfg : FunctionConfig)
    (h : nodejsFunctionRest env id props = .ok cfg) :
    cfg.runtime = props.runtime.getD
      (if 12 ≤ env.nodeMajor then NODEJS_12_X else NODEJS_10_X) := by
  unfold nodejsFunctionRest at h
  cases hl : resolveLockFile env props with
  | error e => rw [hl] at h; simp at h
  | ok lf =>
    simp only [hl] at h
    cases hf : findEntry env id props.entry with
    | error e => simp only [hf] at h; simp at h
    | ok ent =>
      simp only [hf, Except.ok.injEq] at h
      subst h
      rfl

end Lambda

namespace Cdk

/-! ## Claim theorems -/

/-- C1: for the example input (KMS key and S3 bucket whose encryption
configuration and metadata reference the key), synthesis yields exactly
the repository's example template: the KMS master key id and the
metadata's `KeyArn` resolve to `{"Fn::GetAtt": ["Key", "Arn"]}`, the
metadata's `KeyRef` to `{"Ref": "Key"}`, the deletion and update-replace
policies pass through unchanged (`Delete`/`Delete` for Key,
`Retain`/`Retain` for Bucket), and the reference graph holds exactly the
one edge Bucket→Key. -/
theorem spec_C1 :
    synthesize exampleReg 40 [keyResource, bucketResource]
      = .ok expectedTemplate ∧
    refEdges exampleReg 40 [keyResource, bucketResource]
      = [("Bucket", "Key")] :=
  ⟨rfl, rfl⟩

/-- C2: for every resource set whose reference graph contains a cycle
(witnessed by a nonempty node set in which every node keeps an out-edge
into the set), synthesis fails with the fatal reference-cycle error
naming the participating resource ids (the error carries a nonempty id
list containing every node of the cycle) and emits no document; in
particular the three-resource chain A→B→C→A fails with the cycle error
naming exactly A, B, C. -/
theorem spec_C2 (reg : Registry) (fuel : Nat) (rs : List Resource)
    (c : List String) (h : cycleWitness (refEdges reg fuel rs) c = true)
    (hin : ∀ x ∈ c, x ∈ rs.map fun r => r.logicalId) :
    (∃ left, synthesize reg fuel rs = .error (.refCycle left) ∧ left ≠ [] ∧
      ∀ x ∈ c, x ∈ left) ∧
    synthesize cycleReg 9 [resA, resB, resC]
      = .error (.refCycle ["A", "B", "C"]) :=
  ⟨synth_cycle reg fuel rs c h hin, rfl⟩

/-- C2 witness: the A→B→C→A chain instantiates the cycle theorem. -/
theorem spec_C2_witness :
    ((∃ left, synthesize cycleReg 9 [resA, resB, resC]
        = .error (.refCycle left) ∧ left ≠ [] ∧
        ∀ x ∈ ["A", "B", "C"], x ∈ left) ∧
      synthesize cycleReg 9 [resA, resB, resC]
        = .error (.refCycle ["A", "B", "C"])) :=
  spec_C2 cycleReg 9 [resA, resB, resC] ["A", "B", "C"] (by decide) (by decide)

/-- C3: synthesis is deterministic and idempotent — a full
resolve-and-emit pass leaves the registry state unchanged (no side
effects), and a second pass over the unchanged graph and state produces
a byte-identical serialized document. -/
theorem spec_C3 (reg : Registry) (fuel sfuel : Nat) (rs : List Resource) :
    (synthPass reg fuel sfuel rs).1 = reg ∧
    (synthPass (synthPass reg fuel sfuel rs).1 fuel sfuel rs).2
      = (synthPass reg fuel sfuel rs).2 :=
  ⟨rfl, rfl⟩

/-- C4: encoding round-trips — scanning the encoding of a registered
token recovers exactly that one token, scanning a token-free literal
yields no tokens, and resolving the encoded string equals resolving the
token itself (the encoded string costs exactly the one unwrapping step
of fuel). -/
theorem spec_C4 (reg : Registry) (fuel : Nat) (vis : List Nat) (id : Nat)
    (s : String) (_hreg : id < List.length reg)
    (hfree : strTokenFree s = true) :
    tokIds (scan (encode id)) = [id] ∧ tokIds (scan s) = [] ∧
    resolveVal reg (fuel + 1) vis (.str (encode id))
      = resolveVal reg fuel vis (.token id) :=
  ⟨tokIds_scan_encode id, scan_token_free s hfree, resolve_encode reg fuel vis id⟩

/-- C4 witness: a one-token registry and the literal "hello". -/
theorem spec_C4_witness :
    0 < List.length [Token.ref "R"] ∧ strTokenFree "hello" = true ∧
    (tokIds (scan (encode 0)) = [0] ∧ tokIds (scan "hello") = [] ∧
      resolveVal [Token.ref "R"] 3 [] (.str (encode 0))
        = resolveVal [Token.ref "R"] 2 [] (.token 0)) :=
  ⟨by decide, by decide,
    spec_C4 [Token.ref "R"] 2 [] 0 "hello" (by decide) (by decide)⟩

/-- C5: resolution is the identity on token-free values — any value
certified free of tokens (no token node and no string-embedded token
anywhere in its tree) resolves to itself. -/
theorem spec_C5 (reg : Registry) (fuel : Nat) (vis : List Nat) (v : Value)
    (h : tokenFreeAux fuel v = true) :
    resolveVal reg fuel vis v = .ok v :=
  resolve_token_free reg fuel vis v h

/-- C5 witness: a token-free nested mapping resolves to itself. -/
theorem spec_C5_witness :
    tokenFreeAux 5 (.map [("a", .arr [.str "x"])]) = true ∧
    resolveVal [] 5 [] (.map [("a", .arr [.str "x"])])
      = .ok (.map [("a", .arr [.str "x"])]) :=
  ⟨by decide, spec_C5 [] 5 [] (.map [("a", .arr [.str "x"])]) (by decide)⟩

/-- C6: a string consisting of exactly one embedded token with no
surrounding literal text resolves to the token's resolved value directly
in its native shape (here, the attribute lookup mapping) — not coerced
to a string and not wrapped in a one-part join expression. -/
theorem spec_C6 (reg : Registry) (fuel : Nat) (id : Nat)
    (target attr : String)
    (hreg : List.get? reg id = some (.att target attr)) :
    resolveVal reg (fuel + 2) [] (.str (encode id))
      = .ok (.map [("Fn::GetAtt", .arr [.str target, .str attr])]) := by
  have h1 := resolve_encode reg (fuel + 1) [] id
  rw [h1, resolve_token_get reg fuel [] id (by simp), hreg]

/-- C6 witness: the whole-string attribute token of the example. -/
theorem spec_C6_witness :
    List.get? [Token.att "Key" "Arn"] 0 = some (.att "Key" "Arn") ∧
    resolveVal [Token.att "Key" "Arn"] 2 [] (.str (encode 0))
      = .ok (.map [("Fn::GetAtt", .arr [.str "Key", .str "Arn"])]) :=
  ⟨rfl, spec_C6 [Token.att "Key" "Arn"] 0 0 "Key" "Arn" rfl⟩

/-- C7: a string of literal text "a-", a whole-value token, and literal
text "-b" resolves to a join intrinsic whose parts are the literal
fragments and the token's resolved expression in the original
left-to-right order. -/
theorem spec_C7 (reg : Registry) (fuel : Nat) (vis : List Nat) (id : Nat)
    (rT : Value) (h : resolveVal reg (fuel + 1) vis (.token id) = .ok rT) :
    resolveVal reg (fuel + 3) vis (.str ("a-" ++ encode id ++ "-b"))
      = .ok (joinExpr [.str "a-", rT, .str "-b"]) :=
  resolve_lit_tok_lit reg fuel vis id rT h

/-- C7 witness: an attribute token embedded between the two literals. -/
theorem spec_C7_witness :
    resolveVal [Token.att "Key" "Arn"] 1 [] (.token 0)
      = .ok (.map [("Fn::GetAtt", .arr [.str "Key", .str "Arn"])]) ∧
    resolveVal [Token.att "Key" "Arn"] 3 [] (.str ("a-" ++ encode 0 ++ "-b"))
      = .ok (joinExpr [.str "a-",
          .map [("Fn::GetAtt", .arr [.str "Key", .str "Arn"])], .str "-b"]) :=
  ⟨rfl, spec_C7 [Token.att "Key" "Arn"] 0 [] 0
    (.map [("Fn::GetAtt", .arr [.str "Key", .str "Arn"])]) rfl⟩

/-- C8: every emitted resource entry is a mapping holding the type name
and the resolved properties, with the optional deletion-policy,
update-replace-policy and metadata keys as top-level siblings of the
properties key (the properties value is exactly the resolved property
tree, with nothing nested into it); the two policies are copied through
verbatim and an absent policy produces no key at all. -/
theorem spec_C8 (reg : Registry) (fuel : Nat) (r : Resource)
    (entry : String × Value) (h : emitEntry reg fuel r = .ok entry) :
    entry.1 = r.logicalId ∧ ∃ kvs props, entry.2 = .map kvs ∧
      resolveVal reg fuel [] r.properties = .ok props ∧
      lookupV "Type" kvs = some (.str r.type) ∧
      lookupV "Properties" kvs = some props ∧
      lookupV "DeletionPolicy" kvs = r.deletionPolicy.map Value.str ∧
      lookupV "UpdateReplacePolicy" kvs = r.updateReplacePolicy.map Value.str ∧
      ((r.metadata = none ∧ lookupV "Metadata" kvs = none) ∨
        (∃ m rm, r.metadata = some m ∧ resolveVal reg fuel [] m = .ok rm ∧
          lookupV "Metadata" kvs = some rm)) :=
  emitEntry_shape reg fuel r entry h

/-- C8 witness: the emitted entry of resource A of the cycle example. -/
theorem spec_C8_witness :
    (("A", Value.map [("Type", Value.str "T"),
        ("Properties", Value.map [("Ref", Value.str "B")])]).1
      = resA.logicalId) ∧
    ∃ kvs props,
      ("A", Value.map [("Type", Value.str "T"),
        ("Properties", Value.map [("Ref", Value.str "B")])]).2 = .map kvs ∧
      resolveVal cycleReg 3 [] resA.properties = .ok props ∧
      lookupV "Type" kvs = some (.str resA.type) ∧
      lookupV "Properties" kvs = some props ∧
      lookupV "DeletionPolicy" kvs = resA.deletionPolicy.map Value.str ∧
      lookupV "UpdateReplacePolicy" kvs
        = resA.updateReplacePolicy.map Value.str ∧
      ((resA.metadata = none ∧ lookupV "Metadata" kvs = none) ∨
        (∃ m rm, resA.metadata = some m ∧ resolveVal cycleReg 3 [] m = .ok rm ∧
          lookupV "Metadata" kvs = some rm)) :=
  spec_C8 cycleReg 3 resA
    ("A", Value.map [("Type", Value.str "T"),
      ("Properties", Value.map [("Ref", Value.str "B")])]) (by rfl)

end Cdk

namespace Lambda

/-- C9: the NodejsFunction constructor rejects any supplied runtime of a
family other than NODEJS with the error 'Only `NODEJS` runtimes are
supported.' before any other work (the rejection holds for every ambient
environment); with the runtime omitted this error is impossible, and a
successful construction defaults the runtime to NODEJS_12_X when the
running Node.js major version is at least 12 and to NODEJS_10_X
otherwise. -/
theorem spec_C9 (env : SysEnv) (id : String) (props : NodejsFunctionProps) :
    (∀ r, props.runtime = some r → r.family ≠ RuntimeFamily.nodejs →
      nodejsFunction env id props
        = .error "Only `NODEJS` runtimes are supported.") ∧
    (props.runtime = none →
      nodejsFunction env id props
        ≠ .error "Only `NODEJS` runtimes are supported." ∧
      ∀ cfg, nodejsFunction env id props = .ok cfg →
        cfg.runtime = if 12 ≤ env.nodeMajor then NODEJS_12_X else NODEJS_10_X) := by
  constructor
  · intro r hr hfam
    simp only [nodejsFunction, hr]
    rw [if_neg hfam]
  · intro hr
    constructor
    · simp only [nodejsFunction, hr]
      exact rest_ne_runtime_error env id props
    · intro cfg hcfg
      simp only [nodejsFunction, hr] at hcfg
      have := rest_ok_runtime env id props cfg hcfg
      rw [this, hr]
      rfl

/-- C9 witness: a Python runtime is rejected for every environment, and
the omitted runtime never produces that error. -/
theorem spec_C9_witness :
    nodejsFunction
        (⟨fun _ => true, some "/yarn.lock", none, 12, some "/app/stack.ts"⟩ :
          SysEnv) "fn"
        { runtime := some ⟨"python3.8", RuntimeFamily.python⟩ }
      = .error "Only `NODEJS` runtimes are supported." ∧
    nodejsFunction
        (⟨fun _ => true, some "/yarn.lock", none, 12, some "/app/stack.ts"⟩ :
          SysEnv) "fn" {}
      ≠ .error "Only `NODEJS` runtimes are supported." :=
  ⟨(spec_C9 _ "fn" _).1 ⟨"python3.8", RuntimeFamily.python⟩ rfl (by decide),
    ((spec_C9 _ "fn" {}).2 rfl).1⟩

/-- C10: findEntry returns an explicitly given entry exactly when it has
a `.js`, `.jsx`, `.ts` or `.tsx` extension and exists (throwing the
extension error or the missing-file error otherwise); with no entry
given, candidates are derived from the defining file's name with the
construct id as suffix, the `.ts` candidate is preferred over the `.js`
candidate regardless of whether the latter exists, the first existing
candidate is returned, and 'Cannot find entry file.' is thrown when
neither exists. -/
theorem spec_C10 (env : SysEnv) (id : String) :
    (∀ e, findEntry env id (some e) = .ok e ↔
      hasAllowedExt e = true ∧ env.fsExists e = true) ∧
    (∀ e, hasAllowedExt e = false →
      findEntry env id (some e)
        = .error "Only JavaScript or TypeScript entry files are supported.") ∧
    (∀ e, hasAllowedExt e = true → env.fsExists e = false →
      findEntry env id (some e) = .error ("Cannot find entry file at " ++ e)) ∧
    (∀ df, env.definingFile = some df →
      (env.fsExists (candidateFile df id ".ts") = true →
        findEntry env id none = .ok (candidateFile df id ".ts")) ∧
      (env.fsExists (candidateFile df id ".ts") = false →
        env.fsExists (candidateFile df id ".js") = true →
        findEntry env id none = .ok (candidateFile df id ".js")) ∧
      (env.fsExists (candidateFile df id ".ts") = false →
        env.fsExists (candidateFile df id ".js") = false →
        findEntry env id none = .error "Cannot find entry file.")) := by
  refine ⟨?_, ?_, ?_, ?_⟩
  · intro e
    constructor
    · intro h
      by_cases ha : hasAllowedExt e = true
      · by_cases hf : env.fsExists e = true
        · exact ⟨ha, hf⟩
        · rw [Bool.not_eq_true] at hf
          simp [findEntry, ha, hf] at h
      · rw [Bool.not_eq_true] at ha
        simp [findEntry, ha] at h
    · rintro ⟨ha, hf⟩
      simp [findEntry, ha, hf]
  · intro e ha
    simp [findEntry, ha]
  · intro e ha hf
    simp [findEntry, ha, hf]
  · intro df hdf
    refine ⟨?_, ?_, ?_⟩
    · intro h1
      simp [findEntry, hdf, h1]
    · intro h1 h2
      simp [findEntry, hdf, h1, h2]
    · intro h1 h2
      simp [findEntry, hdf, h1, h2]

/-- C10 witness: with defining file `/app/stack.ts` and id `my-handler`,
the `.ts` candidate `/app/stack.my-handler.ts` is found and returned
even though the `.js` candidate also exists. -/
theorem spec_C10_witness :
    findEntry
        (⟨fun _ => true, none, none, 12, some "/app/stack.ts"⟩ : SysEnv)
        "my-handler" none
      = .ok "/app/stack.my-handler.ts" :=
  ((spec_C10
      (⟨fun _ => true, none, none, 12, some "/app/stack.ts"⟩ : SysEnv)
      "my-handler").2.2.2 "/app/stack.ts" rfl).1 rfl

end Lambda
